import Mathlib

/-
Verification development for the financial dashboard `dashboard_financiero.py`.

The script is a Streamlit page; its algorithmic content lives in two helper
functions plus a top-to-bottom render flow:

* `descargar_datos(tickers, inicio, fin)` — loops over the requested tickers,
  fetching each one from the market-data client inside a `try`.  A non-empty
  frame with a `Close` column contributes one column `datos[ticker]`; an empty
  frame appends the warning `f"{ticker}: Sin datos disponibles"`; a non-empty
  frame without `Close` appends `f"{ticker}: Formato inesperado"`; an exception
  appends `f"{ticker}: {str(e)}"`.  The function returns `datos.dropna()`.

* `calcular_metricas(datos)` — computes `retornos = datos.pct_change().dropna()`
  and a per-instrument metrics table of closed-form statistics, returning
  `(metricas.round(2), retornos)`.

We embed both shallowly.  Tables are lists of rows (for the pct_change /
dropna shape claims, over `Option ℚ` where `none` models a missing value /
NaN) or named columns (for the download loop).  The per-column statistics are
embedded over `ℝ`; as usual for a real-number embedding of float code,
division by zero is the junk value `0` where the floats would produce
`inf`/`NaN` (each use is noted at the claim it affects).  The market-data
client is an oracle `String → FetchOutcome` supplied as an argument, with one
constructor per branch of the loop body; warnings are recorded as
(ticker, message) pairs, mirroring the `f"{ticker}: {message}"` strings the
code appends to `errores`.
-/

namespace Dashboard

/-! ### Price tables as lists of rows over `Option ℚ`

`none` models a missing value (NaN).  `pct_change` is pandas
`DataFrame.pct_change()`: the first row becomes all-NaN and row `i` holds
`cur / prev - 1` cellwise against row `i-1` (a cell is NaN when either input
is missing; the claims only exercise tables with no missing values, where
pandas' fill-forward of missing cells is a no-op).  `dropnaRows` is
`DataFrame.dropna()`: it drops every row containing a missing value. -/

/-- One cell of `pct_change`: `cur / prev - 1` in float arithmetic.  A
missing input gives a missing output; `0.0 / 0.0` is NaN, hence missing
(`none`), and is removed by the later `dropna()`.  (`c / 0` for `c ≠ 0` is
`±inf` in the floats — a defined, non-missing value that `dropna()` keeps;
it is carried here as the defined junk rational `c / 0 - 1 = -1`, and no
claim below evaluates such a cell.) -/
def pctChangeCell : Option ℚ → Option ℚ → Option ℚ
  | some p, some c => if p = 0 ∧ c = 0 then none else some (c / p - 1)
  | _, _ => none

def pctChangeRow (prev cur : List (Option ℚ)) : List (Option ℚ) :=
  List.zipWith pctChangeCell prev cur

def pct_change (rows : List (List (Option ℚ))) : List (List (Option ℚ)) :=
  match rows with
  | [] => []
  | r :: _ => (r.map fun _ => none) :: List.zipWith pctChangeRow rows rows.tail

def dropnaRows (rows : List (List (Option ℚ))) : List (List (Option ℚ)) :=
  rows.filter fun r => r.all fun x => x.isSome

/-! ### The download loop of `descargar_datos`

`FetchOutcome` abstracts the result of `yf.download(ticker, ...)` as observed
by the loop body: a non-empty frame with a `Close` column (carrying the price
column), an empty frame, a non-empty frame without `Close`, or a raised
exception with its message. -/

inductive FetchOutcome where
  | success (col : List (Option ℚ))
  | emptyData
  | missingClose
  | raised (msg : String)

def FetchOutcome.isSuccess : FetchOutcome → Bool
  | .success _ => true
  | _ => false

/-- Embedding of `datos[ticker] = col`: pandas column assignment replaces an existing
column with the same name in place, otherwise appends a new column. -/
def setCol (tbl : List (String × List (Option ℚ))) (name : String)
    (c : List (Option ℚ)) : List (String × List (Option ℚ)) :=
  if tbl.any fun q => q.1 == name then
    tbl.map fun q => if q.1 == name then (name, c) else q
  else tbl ++ [(name, c)]

/-- The `for ticker in tickers` loop of `descargar_datos`, threading the
accumulated table `datos` and warning list `errores`. -/
def procesarTickers (fetch : String → FetchOutcome) :
    List String → List (String × List (Option ℚ)) → List (String × String) →
      List (String × List (Option ℚ)) × List (String × String)
  | [], datos, errores => (datos, errores)
  | t :: ts, datos, errores =>
    match fetch t with
    | .success c => procesarTickers fetch ts (setCol datos t c) errores
    | .emptyData => procesarTickers fetch ts datos (errores ++ [(t, "Sin datos disponibles")])
    | .missingClose => procesarTickers fetch ts datos (errores ++ [(t, "Formato inesperado")])
    | .raised m => procesarTickers fetch ts datos (errores ++ [(t, m)])

/-- Is row `i` free of missing values across all columns of `tbl`? -/
def rowOk (tbl : List (String × List (Option ℚ))) (i : ℕ) : Bool :=
  tbl.all fun c => (c.2.getD i none).isSome

/-- Embedding of `datos.dropna()` on a table of named columns: every column keeps exactly
the row positions at which no column has a missing value.  Rows are dropped,
columns (and their names and order) are preserved. -/
def dropnaTable (tbl : List (String × List (Option ℚ))) :
    List (String × List (Option ℚ)) :=
  tbl.map fun c => (c.1, ((List.range c.2.length).filter (rowOk tbl)).map fun i => c.2.getD i none)

/-- The assembled table before the final `dropna()` (state of `datos` after
the loop). -/
def datosPreDropna (fetch : String → FetchOutcome) (tickers : List String) :
    List (String × List (Option ℚ)) :=
  (procesarTickers fetch tickers [] []).1

/-- The recorded warnings (state of `errores` after the loop). -/
def erroresDescarga (fetch : String → FetchOutcome) (tickers : List String) :
    List (String × String) :=
  (procesarTickers fetch tickers [] []).2

/-- Embedding of `descargar_datos`: run the loop from empty accumulators and return
`datos.dropna()` together with the recorded warnings (the code surfaces the
warnings via `st.warning` inside an expander). -/
def descargar_datos (fetch : String → FetchOutcome) (tickers : List String) :
    List (String × List (Option ℚ)) × List (String × String) :=
  (dropnaTable (datosPreDropna fetch tickers), erroresDescarga fetch tickers)

/-! ### Per-instrument statistics over `ℝ`

All pandas/numpy operations in `calcular_metricas` act column by column, so
the metric formulas are embedded per price column `p : List ℝ`.  `sampleStd`
is `Series.std()` (sample standard deviation, `ddof=1`); `meanR` is
`Series.mean()`.  Division by zero (where the floats would give `inf`/`NaN`)
is the junk value `0` of real division. -/

noncomputable section

/-- Embedding of `datos.pct_change().dropna()` on one column: day-over-day percentage
change, `cur / prev - 1`, one entry per consecutive pair. -/
def retornosR (p : List ℝ) : List ℝ :=
  List.zipWith (fun prev cur => cur / prev - 1) p p.tail

/-- Pandas `Series.mean()`. -/
def meanR (l : List ℝ) : ℝ := l.sum / (l.length : ℝ)

/-- Sum of squared deviations from the mean. -/
def devSq (l : List ℝ) : ℝ := (l.map fun x => (x - meanR l) ^ 2).sum

/-- Pandas `Series.std()` with the default `ddof=1`. -/
def sampleStd (l : List ℝ) : ℝ := Real.sqrt (devSq l / ((l.length : ℝ) - 1))

/-- Embedding of `retornos[retornos < 0]`: boolean masking keeps the strictly negative
entries and turns every other entry into NaN (`none`). -/
def maskNeg (l : List ℝ) : List (Option ℝ) :=
  l.map fun x => if x < 0 then some x else none

/-- Pandas `Series.std()` on a series with NaNs: pandas skips the NaN entries and
takes the sample standard deviation of the remaining values. -/
def stdSkipNA (l : List (Option ℝ)) : ℝ := sampleStd l.reduceOption

/-- Pandas `Series.quantile(q)` with the default linear interpolation on the sorted
values: position `h = q * (n - 1)`, result `s[
  ⌊h⌋] + (h - ⌊h⌋) * (s[⌊h⌋+1] - s[⌊h⌋])`. -/
def quantileR (q : ℝ) (l : List ℝ) : ℝ :=
  let s := List.insertionSort (· ≤ ·) l
  let h := q * ((s.length : ℝ) - 1)
  s.getD ⌊h⌋.toNat 0 + (h - (⌊h⌋ : ℝ)) * (s.getD (⌊h⌋.toNat + 1) 0 - s.getD ⌊h⌋.toNat 0)

/-- Pandas `Series.min()` of a nonempty series (the empty case is junk `0`,
where pandas would give NaN). -/
def listMin : List ℝ → ℝ
  | [] => 0
  | x :: t => t.foldl min x

/-- Pandas `Series.max()` of a nonempty series (the empty case is junk `0`,
where pandas would give NaN). -/
def listMax : List ℝ → ℝ
  | [] => 0
  | x :: t => t.foldl max x

/-- Embedding of `(1 + retornos).cumprod()` with running accumulator `acc`. -/
def cumprodAux (acc : ℝ) : List ℝ → List ℝ
  | [] => []
  | x :: t => (acc * x) :: cumprodAux (acc * x) t

/-- Embedding of `cumulative = (1 + retornos).cumprod()`. -/
def cumulative (r : List ℝ) : List ℝ := cumprodAux 1 (r.map fun x => 1 + x)

/-- Embedding of `cumulative.expanding().max()` after the first entry, with running
maximum `acc`. -/
def runningMaxAux (acc : ℝ) : List ℝ → List ℝ
  | [] => []
  | x :: t => (max acc x) :: runningMaxAux (max acc x) t

/-- Embedding of `running_max = cumulative.expanding().max()`. -/
def runningMax (c : List ℝ) : List ℝ :=
  match c with
  | [] => []
  | x :: t => runningMaxAux x (x :: t)

/-- Embedding of `drawdown = (cumulative - running_max) / running_max` for a returns
series. -/
def drawdowns (r : List ℝ) : List ℝ :=
  List.zipWith (fun c m => (c - m) / m) (cumulative r) (runningMax (cumulative r))

/-- One row of the metrics table of `calcular_metricas` (one instrument),
before the final `round(2)`. -/
structure Metricas where
  precioInicial : ℝ
  precioFinal : ℝ
  rendimiento : ℝ
  volDiaria : ℝ
  volAnualizada : ℝ
  sharpe : ℝ
  sortino : ℝ
  var5 : ℝ
  maxRetorno : ℝ
  minRetorno : ℝ
  maxDrawdown : ℝ

/-- The raw (pre-rounding) metric formulas of `calcular_metricas` for one
price column `p`, read off lines 141–166 of the source. -/
def metricasRaw (p : List ℝ) : Metricas :=
  let r := retornosR p
  { precioInicial := p.headI
    precioFinal := p.getLastD 0
    rendimiento := (p.getLastD 0 / p.headI - 1) * 100
    volDiaria := sampleStd r * 100
    volAnualizada := sampleStd r * Real.sqrt 252 * 100
    sharpe := meanR r / sampleStd r * Real.sqrt 252
    sortino := meanR r / stdSkipNA (maskNeg r) * Real.sqrt 252
    var5 := quantileR (5 / 100) r * 100
    maxRetorno := listMax r * 100
    minRetorno := listMin r * 100
    maxDrawdown := listMin (drawdowns r) * 100 }

/-! ### Rounding

`metricas.round(2)` rounds every entry to 2 decimal places; numpy rounds
half to even. -/

/-- numpy rounding to the nearest integer, ties to even. -/
def roundEven (y : ℝ) : ℤ :=
  if Int.fract y = 1 / 2 then (if Even ⌊y⌋ then ⌊y⌋ else ⌊y⌋ + 1) else round y

/-- Numpy `round(x, 2)`: round to 2 decimal places, ties to even. -/
def round2 (x : ℝ) : ℝ := (roundEven (x * 100) : ℝ) / 100

/-- The value `x` is `y` rounded to 2 decimal places: `x` is an integer
number of hundredths and differs from `y` by at most half of the last
rounded digit. -/
def Rounded2Of (x y : ℝ) : Prop :=
  (∃ k : ℤ, x = (k : ℝ) / 100) ∧ |x - y| ≤ 1 / 200

/-- Embedding of `metricas.round(2)` on one row. -/
def roundMetricas (m : Metricas) : Metricas :=
  { precioInicial := round2 m.precioInicial
    precioFinal := round2 m.precioFinal
    rendimiento := round2 m.rendimiento
    volDiaria := round2 m.volDiaria
    volAnualizada := round2 m.volAnualizada
    sharpe := round2 m.sharpe
    sortino := round2 m.sortino
    var5 := round2 m.var5
    maxRetorno := round2 m.maxRetorno
    minRetorno := round2 m.minRetorno
    maxDrawdown := round2 m.maxDrawdown }

/-- Embedding of `calcular_metricas` for one price column: the rounded metrics row
together with the unrounded returns series (`return metricas.round(2),
retornos`). -/
def calcular_metricas (p : List ℝ) : Metricas × List ℝ :=
  (roundMetricas (metricasRaw p), retornosR p)

/-! ### Correlation matrix (`retornos.corr()`) -/

/-- Pairwise Pearson correlation of two return series, as computed by
pandas: the sum of products of deviations over the square root of the
product of the two squared-deviation sums (a zero divisor yields junk,
where pandas yields NaN). -/
def corrPearson (x y : List ℝ) : ℝ :=
  (List.zipWith (fun a b => (a - meanR x) * (b - meanR y)) x y).sum /
    Real.sqrt (devSq x * devSq y)

/-- Embedding of `retornos.corr()`: the matrix of pairwise Pearson correlations of the
return columns. -/
def corrMatrix (cols : List (List ℝ)) : List (List ℝ) :=
  cols.map fun x => cols.map fun y => corrPearson x y

/-! ### The main render flow -/

/-- Pandas `DataFrame.empty`: no columns, or every column has no rows. -/
def tableEmpty (tbl : List (String × List (Option ℚ))) : Bool :=
  tbl.isEmpty || tbl.all fun c => c.2.isEmpty

/-- A complete (`dropna`-clean) price column, viewed over `ℝ`. -/
def colToReal (l : List (Option ℚ)) : List ℝ :=
  l.reduceOption.map fun q => (q : ℝ)

/-- Outcome of one render pass of the page body.  `sinSeleccion` is the
`st.warning`+`st.stop` branch for an empty selection; `sinDatos` is the
`st.error`+`st.stop` branch for an empty assembled table; `render` carries
the metrics and returns computed for each instrument column. -/
inductive RenderResult where
  | sinSeleccion
  | sinDatos
  | render (metricas : List (String × Metricas)) (retornos : List (String × List ℝ))

/-- The top-to-bottom page flow around `descargar_datos` and
`calcular_metricas`: stop on empty selection, fetch, stop with an error if
`datos.empty`, otherwise compute metrics and returns and render. -/
def mainFlow (seleccionados : List String) (fetch : String → FetchOutcome) :
    RenderResult :=
  if seleccionados.isEmpty then .sinSeleccion
  else
    let datos := (descargar_datos fetch seleccionados).1
    if tableEmpty datos then .sinDatos
    else
      .render (datos.map fun c => (c.1, (calcular_metricas (colToReal c.2)).1))
        (datos.map fun c => (c.1, (calcular_metricas (colToReal c.2)).2))

end

/-! ## Theorems

### C1 — shape of the returns table -/

/-- A cellwise percentage change of two defined, nonzero cells is defined
(the `0/0` NaN cell cannot arise). -/
theorem pctChangeRow_allSome (a : List (Option ℚ)) :
    ∀ b : List (Option ℚ),
      (∀ x ∈ a, x.isSome = true ∧ x ≠ some 0) →
      (∀ x ∈ b, x.isSome = true ∧ x ≠ some 0) →
      ∀ x ∈ pctChangeRow a b, x.isSome = true := by
  induction a with
  | nil => intro b _ _ x hx; simp [pctChangeRow] at hx
  | cons p a2 ih =>
    intro b ha hb x hx
    cases b with
    | nil => simp [pctChangeRow] at hx
    | cons c b2 =>
      simp only [pctChangeRow, List.zipWith_cons_cons, List.mem_cons] at hx
      rcases hx with rfl | hx
      · obtain ⟨hps, hpz⟩ := ha p (by simp)
        obtain ⟨pp, rfl⟩ := Option.isSome_iff_exists.mp hps
        obtain ⟨hcs, _⟩ := hb c (by simp)
        obtain ⟨cc, rfl⟩ := Option.isSome_iff_exists.mp hcs
        have hppnz : pp ≠ 0 := by
          intro h
          exact hpz (by rw [h])
        simp [pctChangeCell, hppnz]
      · exact ih b2 (fun y hy => ha y (by simp [hy])) (fun y hy => hb y (by simp [hy])) x hx

/-- Every row of the tail part of `pct_change` on an all-defined table with
no zero prices is all-defined. -/
theorem zipSelf_allSome (l : List (List (Option ℚ)))
    (h : ∀ r ∈ l, ∀ x ∈ r, x.isSome = true ∧ x ≠ some 0) :
    ∀ row ∈ List.zipWith pctChangeRow l l.tail, ∀ x ∈ row, x.isSome = true := by
  induction l with
  | nil => simp
  | cons a t ih =>
    cases t with
    | nil => simp
    | cons b t2 =>
      intro row hrow
      simp only [List.tail_cons, List.zipWith_cons_cons, List.mem_cons] at hrow
      rcases hrow with rfl | hrow
      · exact pctChangeRow_allSome a b (h a (by simp)) (h b (by simp))
      · exact ih (fun r hr => h r (by simp [List.mem_cons] at hr ⊢; tauto)) row
          (by simpa using hrow)

/-- C1 counterexample.  The claim quantifies over every price table with at
least 2 rows and no missing values; the one-column table `[[0], [0]]` is in
that domain, yet pandas computes `0.0 / 0.0 = NaN` for its percentage
change, `dropna()` removes that row too, and the returns table has 0 rows,
not 1. -/
theorem C1_counterexample :
    ¬ ((dropnaRows (pct_change [[some (0 : ℚ)], [some 0]])).length =
        ([[some (0 : ℚ)], [some 0]] : List (List (Option ℚ))).length - 1) := by
  decide

/-- C1 (amended: for price tables with no zero prices, so that no `0/0` NaN
arises in the percentage change).  For every price table with at least 2
rows, a positive number of instrument columns, no missing values and no
zero prices, the returns table `datos.pct_change().dropna()` has exactly
one fewer row than the price table and contains no missing values.  (A
price table assembled by `descargar_datos` has rows only by having at least
one instrument column, hence the width hypothesis.) -/
theorem C1_returns_shape (rows : List (List (Option ℚ))) (w : ℕ)
    (hlen : 2 ≤ rows.length) (hw : ∀ r ∈ rows, r.length = w) (hw0 : 0 < w)
    (hall : ∀ r ∈ rows, ∀ x ∈ r, x.isSome = true ∧ x ≠ some 0) :
    (dropnaRows (pct_change rows)).length = rows.length - 1 ∧
      ∀ r ∈ dropnaRows (pct_change rows), ∀ x ∈ r, x.isSome = true := by
  cases rows with
  | nil => simp at hlen
  | cons a rest =>
    have hane : a ≠ [] := by
      have hl := hw a (by simp)
      intro hnil
      rw [hnil] at hl
      simp at hl
      omega
    have hdrop : dropnaRows (pct_change (a :: rest)) =
        List.zipWith pctChangeRow (a :: rest) rest := by
      show List.filter _ (_ :: _) = _
      rw [List.filter_cons]
      have hhead : ((a.map fun _ => (none : Option ℚ)).all fun x => x.isSome) = false := by
        cases a with
        | nil => exact absurd rfl hane
        | cons y ys => simp
      rw [hhead]
      simp only [Bool.false_eq_true, if_false]
      exact List.filter_eq_self.mpr fun r hr =>
        List.all_eq_true.mpr fun x hx =>
          zipSelf_allSome (a :: rest) hall r (by simpa using hr) x hx
    constructor
    · rw [hdrop]
      simp only [List.length_zipWith, List.length_cons]
      omega
    · intro r hr
      rw [hdrop] at hr
      exact zipSelf_allSome (a :: rest) hall r (by simpa using hr)

/-- Witness for the amended C1 on the concrete 2-row, 1-column table
`[[1], [2]]` of nonzero prices. -/
theorem C1_returns_shape_witness :
    (2 ≤ ([[some (1 : ℚ)], [some 2]] : List (List (Option ℚ))).length ∧
        (∀ r ∈ ([[some (1 : ℚ)], [some 2]] : List (List (Option ℚ))), r.length = 1) ∧
        (0 : ℕ) < 1 ∧
        ∀ r ∈ ([[some (1 : ℚ)], [some 2]] : List (List (Option ℚ))),
          ∀ x ∈ r, x.isSome = true ∧ x ≠ some 0) ∧
      ((dropnaRows (pct_change [[some (1 : ℚ)], [some 2]])).length =
          ([[some (1 : ℚ)], [some 2]] : List (List (Option ℚ))).length - 1 ∧
        ∀ r ∈ dropnaRows (pct_change [[some (1 : ℚ)], [some 2]]),
          ∀ x ∈ r, x.isSome = true) :=
  ⟨⟨by decide, by decide, by decide, by decide⟩,
    C1_returns_shape [[some 1], [some 2]] 1 (by decide) (by decide) (by decide) (by decide)⟩

/-! ### C5 / C10 — the download loop -/

/-- Assigning a column under a name not yet present appends it. -/
theorem setCol_of_notMem (tbl : List (String × List (Option ℚ))) (t : String)
    (c : List (Option ℚ)) (h : t ∉ tbl.map Prod.fst) :
    setCol tbl t c = tbl ++ [(t, c)] := by
  unfold setCol
  have hany : (tbl.any fun q => q.1 == t) = false := by
    rw [List.any_eq_false]
    intro q hq hbeq
    exact h (List.mem_map.mpr ⟨q, hq, by simpa using hbeq⟩)
  rw [hany]
  simp

/-- Invariant of the download loop: starting from a table whose column names
avoid the remaining (pairwise distinct) tickers, the final column names are
the old ones followed by the tickers whose fetch succeeds, and the final
warning list is the old one followed by one entry per failing ticker. -/
theorem procesarTickers_spec (fetch : String → FetchOutcome) :
    ∀ (ts : List String) (datos : List (String × List (Option ℚ)))
      (errs : List (String × String)),
      ts.Nodup → (∀ t ∈ ts, t ∉ datos.map Prod.fst) →
      ((procesarTickers fetch ts datos errs).1.map Prod.fst =
          datos.map Prod.fst ++ ts.filter fun t => (fetch t).isSuccess) ∧
        ((procesarTickers fetch ts datos errs).2.map Prod.fst =
          errs.map Prod.fst ++ ts.filter fun t => !(fetch t).isSuccess) := by
  intro ts
  induction ts with
  | nil => intro datos errs _ _; simp [procesarTickers]
  | cons t ts2 ih =>
    intro datos errs hnd hmem
    have hnd2 : ts2.Nodup := (List.nodup_cons.mp hnd).2
    have htn : t ∉ ts2 := (List.nodup_cons.mp hnd).1
    have ht : t ∉ datos.map Prod.fst := hmem t (by simp)
    cases hft : fetch t with
    | success c =>
      have hsc := setCol_of_notMem datos t c ht
      have hmem2 : ∀ u ∈ ts2, u ∉ (setCol datos t c).map Prod.fst := by
        intro u hu
        rw [hsc]
        simp only [List.map_append, List.mem_append, List.map_cons, List.map_nil]
        rintro (h1 | h2)
        · exact hmem u (by simp [hu]) h1
        · simp at h2
          exact htn (h2 ▸ hu)
      have hrec := ih (setCol datos t c) errs hnd2 hmem2
      have hsucc : (FetchOutcome.success c).isSuccess = true := rfl
      constructor
      · rw [show procesarTickers fetch (t :: ts2) datos errs =
            procesarTickers fetch ts2 (setCol datos t c) errs by
              simp [procesarTickers, hft]]
        rw [hrec.1, hsc, List.filter_cons, hft, hsucc]
        simp
      · rw [show procesarTickers fetch (t :: ts2) datos errs =
            procesarTickers fetch ts2 (setCol datos t c) errs by
              simp [procesarTickers, hft]]
        rw [hrec.2, List.filter_cons, hft]
        simp [FetchOutcome.isSuccess]
    | emptyData =>
      have hrec := ih datos (errs ++ [(t, "Sin datos disponibles")]) hnd2
        (fun u hu => hmem u (by simp [hu]))
      constructor
      · rw [show procesarTickers fetch (t :: ts2) datos errs =
            procesarTickers fetch ts2 datos (errs ++ [(t, "Sin datos disponibles")]) by
              simp [procesarTickers, hft]]
        rw [hrec.1, List.filter_cons, hft]
        simp [FetchOutcome.isSuccess]
      · rw [show procesarTickers fetch (t :: ts2) datos errs =
            procesarTickers fetch ts2 datos (errs ++ [(t, "Sin datos disponibles")]) by
              simp [procesarTickers, hft]]
        rw [hrec.2, List.filter_cons, hft]
        simp [FetchOutcome.isSuccess]
    | missingClose =>
      have hrec := ih datos (errs ++ [(t, "Formato inesperado")]) hnd2
        (fun u hu => hmem u (by simp [hu]))
      constructor
      · rw [show procesarTickers fetch (t :: ts2) datos errs =
            procesarTickers fetch ts2 datos (errs ++ [(t, "Formato inesperado")]) by
              simp [procesarTickers, hft]]
        rw [hrec.1, List.filter_cons, hft]
        simp [FetchOutcome.isSuccess]
      · rw [show procesarTickers fetch (t :: ts2) datos errs =
            procesarTickers fetch ts2 datos (errs ++ [(t, "Formato inesperado")]) by
              simp [procesarTickers, hft]]
        rw [hrec.2, List.filter_cons, hft]
        simp [FetchOutcome.isSuccess]
    | raised m =>
      have hrec := ih datos (errs ++ [(t, m)]) hnd2
        (fun u hu => hmem u (by simp [hu]))
      constructor
      · rw [show procesarTickers fetch (t :: ts2) datos errs =
            procesarTickers fetch ts2 datos (errs ++ [(t, m)]) by
              simp [procesarTickers, hft]]
        rw [hrec.1, List.filter_cons, hft]
        simp [FetchOutcome.isSuccess]
      · rw [show procesarTickers fetch (t :: ts2) datos errs =
            procesarTickers fetch ts2 datos (errs ++ [(t, m)]) by
              simp [procesarTickers, hft]]
        rw [hrec.2, List.filter_cons, hft]
        simp [FetchOutcome.isSuccess]

/-- Dropping incomplete rows preserves the column names. -/
theorem dropnaTable_names (tbl : List (String × List (Option ℚ))) :
    (dropnaTable tbl).map Prod.fst = tbl.map Prod.fst := by
  simp [dropnaTable]

/-- Filtering a list by a predicate and by its negation partitions it. -/
theorem length_filter_partition {α : Type _} (p : α → Bool) (l : List α) :
    (l.filter p).length + (l.filter fun a => !(p a)).length = l.length := by
  induction l with
  | nil => rfl
  | cons x t ih =>
    cases hx : p x <;> simp [List.filter_cons, hx] <;> omega

/-- C5 counterexample.  The claim quantifies over every requested ticker
batch; for the batch `["A", "A", "B"]` where only B's fetch fails, exactly
one of the three requested tickers fails and one warning is recorded, but
the duplicated successful ticker overwrites its own column, so the
resulting table has 1 column, not the claimed 2. -/
theorem C5_counterexample :
    (["A", "A", "B"] : List String).length = 3 ∧
      ((["A", "A", "B"] : List String).filter fun t =>
          !((fun s => if s == "B" then FetchOutcome.emptyData
              else FetchOutcome.success [some 1]) t).isSuccess).length = 1 ∧
      (descargar_datos
          (fun s => if s == "B" then FetchOutcome.emptyData
            else FetchOutcome.success [some 1]) ["A", "A", "B"]).2.length = 1 ∧
      ¬ ((descargar_datos
            (fun s => if s == "B" then FetchOutcome.emptyData
              else FetchOutcome.success [some 1]) ["A", "A", "B"]).1.length = 2) := by
  decide

/-- C5 (amended: for batches of pairwise distinct requested tickers, as
delivered by the UI multiselect).  For every fetch oracle and batch of
pairwise distinct tickers, the assembled table's columns are exactly the
tickers whose fetch succeeds (in order) — each failing ticker is caught,
excluded, and fetching continues — and the recorded warnings name exactly
the failing tickers; in particular, for a batch of three distinct tickers
of which exactly one fails, the resulting table has exactly 2 columns and
exactly one warning is recorded. -/
theorem C5_fallo_por_ticker (fetch : String → FetchOutcome) (tickers : List String)
    (hnd : tickers.Nodup) :
    ((descargar_datos fetch tickers).1.map Prod.fst =
        tickers.filter fun t => (fetch t).isSuccess) ∧
      ((descargar_datos fetch tickers).2.map Prod.fst =
        tickers.filter fun t => !(fetch t).isSuccess) ∧
      (tickers.length = 3 →
        (tickers.filter fun t => !(fetch t).isSuccess).length = 1 →
        (descargar_datos fetch tickers).1.length = 2 ∧
          (descargar_datos fetch tickers).2.length = 1) := by
  have hspec := procesarTickers_spec fetch tickers [] [] hnd (by simp)
  have hcols : (descargar_datos fetch tickers).1.map Prod.fst =
      tickers.filter fun t => (fetch t).isSuccess := by
    show (dropnaTable (datosPreDropna fetch tickers)).map Prod.fst = _
    rw [dropnaTable_names]
    simpa [datosPreDropna] using hspec.1
  have herrs : (descargar_datos fetch tickers).2.map Prod.fst =
      tickers.filter fun t => !(fetch t).isSuccess := by
    simpa [descargar_datos, erroresDescarga] using hspec.2
  refine ⟨hcols, herrs, fun h3 h1 => ⟨?_, ?_⟩⟩
  · have := congrArg List.length hcols
    simp only [List.length_map] at this
    have hpart := length_filter_partition (fun t => (fetch t).isSuccess) tickers
    simp only [h3, h1] at hpart ⊢
    omega
  · have := congrArg List.length herrs
    simp only [List.length_map] at this
    omega

/-- Witness for C5: tickers A, B, C where only B's fetch fails (empty
result): 2 columns, 1 warning. -/
theorem C5_fallo_por_ticker_witness :
    (["A", "B", "C"] : List String).Nodup ∧
      (["A", "B", "C"] : List String).length = 3 ∧
      ((["A", "B", "C"] : List String).filter fun t =>
          !((fun s => if s == "B" then FetchOutcome.emptyData
              else FetchOutcome.success [some 1]) t).isSuccess).length = 1 ∧
      (descargar_datos
          (fun s => if s == "B" then FetchOutcome.emptyData
            else FetchOutcome.success [some 1]) ["A", "B", "C"]).1.length = 2 ∧
      (descargar_datos
          (fun s => if s == "B" then FetchOutcome.emptyData
            else FetchOutcome.success [some 1]) ["A", "B", "C"]).2.length = 1 :=
  ⟨by decide, by decide, by decide,
    (C5_fallo_por_ticker
        (fun s => if s == "B" then FetchOutcome.emptyData
          else FetchOutcome.success [some 1]) ["A", "B", "C"] (by decide)).2.2
      (by decide) (by decide)⟩

/-- C10 counterexample.  As stated, the claim quantifies over every
requested ticker batch; for the batch `["A", "A"]` with both fetches
succeeding, pandas column assignment overwrites the first column, so the
table has 1 column, no warning is recorded, and 1 + 0 is not the number of
requested tickers. -/
theorem C10_counterexample :
    ¬ ((datosPreDropna (fun _ => FetchOutcome.success [some 1]) ["A", "A"]).length +
        (erroresDescarga (fun _ => FetchOutcome.success [some 1]) ["A", "A"]).length =
        (["A", "A"] : List String).length) := by
  decide

/-- C10 (amended: for pairwise distinct requested tickers, as delivered by
the UI multiselect).  Every requested ticker contributes exactly one of a
column in the pre-`dropna` table or a recorded warning — never both, never
neither — so columns plus warnings equals the number of requested
tickers. -/
theorem C10_particion (fetch : String → FetchOutcome) (tickers : List String)
    (hnd : tickers.Nodup) :
    (datosPreDropna fetch tickers).length + (erroresDescarga fetch tickers).length =
        tickers.length ∧
      ∀ t ∈ tickers,
        (t ∈ (datosPreDropna fetch tickers).map Prod.fst ∧
            t ∉ (erroresDescarga fetch tickers).map Prod.fst) ∨
          (t ∉ (datosPreDropna fetch tickers).map Prod.fst ∧
            t ∈ (erroresDescarga fetch tickers).map Prod.fst) := by
  have hspec := procesarTickers_spec fetch tickers [] [] hnd (by simp)
  have hcols : (datosPreDropna fetch tickers).map Prod.fst =
      tickers.filter fun t => (fetch t).isSuccess := by
    simpa [datosPreDropna] using hspec.1
  have herrs : (erroresDescarga fetch tickers).map Prod.fst =
      tickers.filter fun t => !(fetch t).isSuccess := by
    simpa [erroresDescarga] using hspec.2
  constructor
  · have h1 := congrArg List.length hcols
    have h2 := congrArg List.length herrs
    simp only [List.length_map] at h1 h2
    have hpart := length_filter_partition (fun t => (fetch t).isSuccess) tickers
    omega
  · intro t ht
    rw [hcols, herrs]
    cases hs : (fetch t).isSuccess with
    | true =>
      left
      constructor
      · exact List.mem_filter.mpr ⟨ht, hs⟩
      · intro hmem
        have := (List.mem_filter.mp hmem).2
        simp [hs] at this
    | false =>
      right
      constructor
      · intro hmem
        have := (List.mem_filter.mp hmem).2
        simp [hs] at this
      · exact List.mem_filter.mpr ⟨ht, by simp [hs]⟩

/-- Witness for the amended C10: tickers A (succeeds) and B (empty result):
one column plus one warning equals two tickers, and each ticker contributes
exactly one of the two. -/
theorem C10_particion_witness :
    (["A", "B"] : List String).Nodup ∧
      ((datosPreDropna
            (fun s => if s == "A" then FetchOutcome.success [some 1]
              else FetchOutcome.emptyData) ["A", "B"]).length +
          (erroresDescarga
            (fun s => if s == "A" then FetchOutcome.success [some 1]
              else FetchOutcome.emptyData) ["A", "B"]).length =
          (["A", "B"] : List String).length ∧
        ∀ t ∈ (["A", "B"] : List String),
          (t ∈ (datosPreDropna
                (fun s => if s == "A" then FetchOutcome.success [some 1]
                  else FetchOutcome.emptyData) ["A", "B"]).map Prod.fst ∧
              t ∉ (erroresDescarga
                (fun s => if s == "A" then FetchOutcome.success [some 1]
                  else FetchOutcome.emptyData) ["A", "B"]).map Prod.fst) ∨
            (t ∉ (datosPreDropna
                (fun s => if s == "A" then FetchOutcome.success [some 1]
                  else FetchOutcome.emptyData) ["A", "B"]).map Prod.fst ∧
              t ∈ (erroresDescarga
                (fun s => if s == "A" then FetchOutcome.success [some 1]
                  else FetchOutcome.emptyData) ["A", "B"]).map Prod.fst)) :=
  ⟨by decide,
    C10_particion
      (fun s => if s == "A" then FetchOutcome.success [some 1]
        else FetchOutcome.emptyData) ["A", "B"] (by decide)⟩

/-! ### Rounding lemmas (C2 / C9) -/

/-- Ties-to-even rounding moves a value by at most one half. -/
theorem roundEven_near (y : ℝ) : |(roundEven y : ℝ) - y| ≤ 1 / 2 := by
  unfold roundEven
  by_cases hf : Int.fract y = 1 / 2
  · have hy : y = (⌊y⌋ : ℝ) + 1 / 2 := by
      have h := Int.floor_add_fract y
      rw [hf] at h
      linarith
    by_cases he : Even ⌊y⌋
    · rw [if_pos hf, if_pos he, abs_le]
      constructor <;> linarith
    · rw [if_pos hf, if_neg he, abs_le]
      push_cast
      constructor <;> linarith
  · rw [if_neg hf]
    have h := abs_sub_round y
    rwa [abs_sub_comm]

/-- Rounding to 2 decimal places moves a value by at most `1/200`. -/
theorem round2_near (x : ℝ) : |round2 x - x| ≤ 1 / 200 := by
  unfold round2
  have h := roundEven_near (x * 100)
  have h2 : (roundEven (x * 100) : ℝ) / 100 - x =
      ((roundEven (x * 100) : ℝ) - x * 100) / 100 := by ring
  rw [h2, abs_div, abs_of_pos (by norm_num : (0 : ℝ) < 100)]
  linarith

/-- The result of `round2` is an integer number of hundredths. -/
theorem round2_rat (x : ℝ) : ∃ k : ℤ, round2 x = (k : ℝ) / 100 :=
  ⟨roundEven (x * 100), rfl⟩

/-- Rounding to 2 decimals yields a value that `Rounded2Of` the input. -/
theorem round2_spec (x : ℝ) : Rounded2Of (round2 x) x :=
  ⟨round2_rat x, round2_near x⟩

/-- Ties-to-even rounding of a value at least 1 is at least 1. -/
theorem roundEven_pos (y : ℝ) (hy : 1 ≤ y) : 1 ≤ roundEven y := by
  unfold roundEven
  have hfl : (1 : ℤ) ≤ ⌊y⌋ := Int.le_floor.mpr (by exact_mod_cast hy)
  by_cases hf : Int.fract y = 1 / 2
  · rw [if_pos hf]
    by_cases he : Even ⌊y⌋
    · rw [if_pos he]; exact hfl
    · rw [if_neg he]; omega
  · rw [if_neg hf, round_eq]
    have : (1 : ℤ) ≤ ⌊y + 1 / 2⌋ := Int.le_floor.mpr (by push_cast; linarith)
    exact this

/-! ### C2 — annualized vs daily volatility -/

/-- C2 counterexample.  For the price column `[100, 110, 100]` the returned
(2-decimal-rounded) metrics table violates the exact relation: the rounded
annualized volatility is a rational number of hundredths, while the rounded
daily volatility (a nonzero rational) times the irrational `√252` is
irrational. -/
theorem C2_counterexample :
    (calcular_metricas [100, 110, 100]).1.volAnualizada ≠
      (calcular_metricas [100, 110, 100]).1.volDiaria * Real.sqrt 252 := by
  intro heq
  have hr : retornosR [100, 110, 100] = [1 / 10, -(1 / 11)] := by
    simp only [retornosR, List.tail_cons, List.zipWith_cons_cons, List.zipWith_nil_right]
    norm_num
  have hvar : devSq (retornosR [100, 110, 100]) /
      (((retornosR [100, 110, 100]).length : ℝ) - 1) = 441 / 24200 := by
    rw [hr]
    simp only [devSq, meanR, List.map_cons, List.map_nil, List.sum_cons, List.sum_nil,
      List.length_cons, List.length_nil]
    norm_num
  have hs_def : sampleStd (retornosR [100, 110, 100]) = Real.sqrt (441 / 24200) := by
    rw [sampleStd, hvar]
  have hs_sq : sampleStd (retornosR [100, 110, 100]) ^ 2 = 441 / 24200 := by
    rw [hs_def, Real.sq_sqrt]
    norm_num
  have hs_nonneg : 0 ≤ sampleStd (retornosR [100, 110, 100]) := by
    rw [hs_def]
    exact Real.sqrt_nonneg _
  have hs_ge : (1 : ℝ) / 10 ≤ sampleStd (retornosR [100, 110, 100]) := by
    nlinarith [hs_sq, hs_nonneg]
  have hdia : (calcular_metricas [100, 110, 100]).1.volDiaria =
      round2 (sampleStd (retornosR [100, 110, 100]) * 100) := rfl
  have hanu : (calcular_metricas [100, 110, 100]).1.volAnualizada =
      round2 (sampleStd (retornosR [100, 110, 100]) * Real.sqrt 252 * 100) := rfl
  rw [hdia, hanu] at heq
  obtain ⟨k, hk⟩ := round2_rat (sampleStd (retornosR [100, 110, 100]) * Real.sqrt 252 * 100)
  have hm1 : 1 ≤ roundEven (sampleStd (retornosR [100, 110, 100]) * 100 * 100) := by
    apply roundEven_pos
    nlinarith [hs_ge]
  set m := roundEven (sampleStd (retornosR [100, 110, 100]) * 100 * 100) with hmdef
  have hm0 : (m : ℝ) ≠ 0 := by
    have : (1 : ℝ) ≤ (m : ℝ) := by exact_mod_cast hm1
    linarith
  have hd2 : round2 (sampleStd (retornosR [100, 110, 100]) * 100) = (m : ℝ) / 100 := rfl
  rw [hk, hd2] at heq
  have hsqrt : Real.sqrt 252 = (k : ℝ) / (m : ℝ) := by
    rw [eq_div_iff hm0]
    field_simp at heq
    linarith
  have h252 : ¬ IsSquare (252 : ℕ) := by
    rintro ⟨r, hr⟩
    rcases le_or_lt r 15 with h15 | h15
    · have : r * r ≤ 225 := Nat.mul_le_mul h15 h15
      omega
    · have h16 : 16 ≤ r := h15
      have : 256 ≤ r * r := Nat.mul_le_mul h16 h16
      omega
  have hirr : Irrational (Real.sqrt 252) := by
    rw [show ((252 : ℝ) : ℝ) = ((252 : ℕ) : ℝ) by norm_num]
    exact irrational_sqrt_natCast_iff.mpr h252
  exact hirr ⟨(k : ℚ) / (m : ℚ), by rw [hsqrt]; push_cast; ring⟩

/-- C2 (amended: before the final 2-decimal rounding).  For every price
column, the raw annualized volatility equals the raw daily volatility times
`√252` exactly; the returned table entries satisfy it only up to the
rounding of line 168. -/
theorem C2_volatilidad_anualizada (p : List ℝ) :
    (metricasRaw p).volAnualizada = (metricasRaw p).volDiaria * Real.sqrt 252 := by
  simp only [metricasRaw]
  ring

/-! ### C9 — the returned metrics are rounded, the returns are not -/

/-- C9.  Every metric value returned by `calcular_metricas` is the raw
closed-form value rounded to 2 decimal places — an integer number of
hundredths within half of the last rounded digit (`1/200`) of the raw
value — while the returns table is returned unrounded. -/
theorem C9_redondeo (p : List ℝ) :
    Rounded2Of (calcular_metricas p).1.precioInicial (metricasRaw p).precioInicial ∧
      Rounded2Of (calcular_metricas p).1.precioFinal (metricasRaw p).precioFinal ∧
      Rounded2Of (calcular_metricas p).1.rendimiento (metricasRaw p).rendimiento ∧
      Rounded2Of (calcular_metricas p).1.volDiaria (metricasRaw p).volDiaria ∧
      Rounded2Of (calcular_metricas p).1.volAnualizada (metricasRaw p).volAnualizada ∧
      Rounded2Of (calcular_metricas p).1.sharpe (metricasRaw p).sharpe ∧
      Rounded2Of (calcular_metricas p).1.sortino (metricasRaw p).sortino ∧
      Rounded2Of (calcular_metricas p).1.var5 (metricasRaw p).var5 ∧
      Rounded2Of (calcular_metricas p).1.maxRetorno (metricasRaw p).maxRetorno ∧
      Rounded2Of (calcular_metricas p).1.minRetorno (metricasRaw p).minRetorno ∧
      Rounded2Of (calcular_metricas p).1.maxDrawdown (metricasRaw p).maxDrawdown ∧
      (calcular_metricas p).2 = retornosR p :=
  ⟨round2_spec _, round2_spec _, round2_spec _, round2_spec _, round2_spec _,
    round2_spec _, round2_spec _, round2_spec _, round2_spec _, round2_spec _,
    round2_spec _, rfl⟩

/-! ### C4 — the zero-variance example -/

/-- C4.  On the single-instrument price series `[100, 110, 121]`,
`calcular_metricas` is a total function (nothing raises): the returns series
is `[0.10, 0.10]`, the raw total return is `21` percent, the raw daily
volatility is `0`, and the Sharpe ratio — mean over a zero standard
deviation — is the defined degenerate value of division by zero (junk `0`
in this embedding, the non-finite `inf` marker in the floats). -/
theorem C4_ejemplo_degenerado :
    (calcular_metricas [100, 110, 121]).2 = [1 / 10, 1 / 10] ∧
      (metricasRaw [100, 110, 121]).rendimiento = 21 ∧
      (metricasRaw [100, 110, 121]).volDiaria = 0 ∧
      (metricasRaw [100, 110, 121]).sharpe = 0 := by
  have hr : retornosR [100, 110, 121] = [1 / 10, 1 / 10] := by
    simp only [retornosR, List.tail_cons, List.zipWith_cons_cons, List.zipWith_nil_right]
    norm_num
  have hstd : sampleStd (retornosR [100, 110, 121]) = 0 := by
    rw [hr, sampleStd]
    have hdev : devSq [1 / 10, (1 : ℝ) / 10] = 0 := by
      simp only [devSq, meanR, List.map_cons, List.map_nil, List.sum_cons, List.sum_nil,
        List.length_cons, List.length_nil]
      norm_num
    rw [hdev]
    simp
  refine ⟨hr, ?_, ?_, ?_⟩
  · simp only [metricasRaw, List.headI, List.getLastD]
    norm_num
  · show sampleStd (retornosR [100, 110, 121]) * 100 = 0
    rw [hstd]
    ring
  · show meanR (retornosR [100, 110, 121]) / sampleStd (retornosR [100, 110, 121]) *
      Real.sqrt 252 = 0
    rw [hstd]
    simp

/-! ### C7 — the Sortino denominator -/

/-- Dropping the NaNs of the boolean mask `retornos[retornos < 0]` leaves
exactly the strictly negative entries. -/
theorem maskNeg_reduceOption (l : List ℝ) :
    (maskNeg l).reduceOption = l.filter fun x => decide (x < 0) := by
  induction l with
  | nil => rfl
  | cons x t ih =>
    simp only [maskNeg, List.map_cons] at ih ⊢
    by_cases hx : x < 0
    · simp [hx, List.filter_cons, ih]
    · simp [hx, List.filter_cons, ih]

/-- C7.  For every price column, the Sortino ratio computed by
`calcular_metricas` (mask the returns below zero, take the NaN-skipping
sample standard deviation) equals the mean of all returns divided by the
sample standard deviation of only the strictly negative returns, times
`√252`. -/
theorem C7_sortino (p : List ℝ) :
    (metricasRaw p).sortino =
      meanR (retornosR p) /
          sampleStd ((retornosR p).filter fun x => decide (x < 0)) *
        Real.sqrt 252 := by
  show meanR (retornosR p) / stdSkipNA (maskNeg (retornosR p)) * Real.sqrt 252 = _
  rw [stdSkipNA, maskNeg_reduceOption]

/-! ### C3 — maximum drawdown -/

/-- A cumulative product of positive factors from a positive start is
positive everywhere. -/
theorem cumprodAux_pos (l : List ℝ) :
    ∀ acc : ℝ, 0 < acc → (∀ x ∈ l, 0 < x) → ∀ y ∈ cumprodAux acc l, 0 < y := by
  induction l with
  | nil => intro acc _ _ y hy; simp [cumprodAux] at hy
  | cons x t ih =>
    intro acc hacc hl y hy
    have hx : 0 < x := hl x (by simp)
    simp only [cumprodAux, List.mem_cons] at hy
    rcases hy with rfl | hy
    · exact mul_pos hacc hx
    · exact ih (acc * x) (mul_pos hacc hx) (fun z hz => hl z (by simp [hz])) y hy

/-- Each percentage return of a positive price series has `1 + r > 0`. -/
theorem retornosR_one_add_pos (p : List ℝ) (hpos : ∀ x ∈ p, 0 < x) :
    ∀ x ∈ retornosR p, 0 < 1 + x := by
  induction p with
  | nil => simp [retornosR]
  | cons a t ih =>
    cases t with
    | nil => simp [retornosR]
    | cons b t2 =>
      intro x hx
      simp only [retornosR, List.tail_cons, List.zipWith_cons_cons, List.mem_cons] at hx
      rcases hx with rfl | hx
      · have ha : 0 < a := hpos a (by simp)
        have hb : 0 < b := hpos b (by simp)
        have : 0 < b / a := div_pos hb ha
        linarith
      · exact ih (fun z hz => hpos z (by simp [List.mem_cons] at hz ⊢; tauto)) x
          (by simpa [retornosR] using hx)

/-- Against the running maximum, every drawdown over a positive cumulative
path is nonpositive. -/
theorem drawdown_entries_nonpos (c : List ℝ) :
    ∀ acc : ℝ, 0 < acc → (∀ x ∈ c, 0 < x) →
      ∀ d ∈ List.zipWith (fun v m => (v - m) / m) c (runningMaxAux acc c), d ≤ 0 := by
  induction c with
  | nil => intro acc _ _ d hd; simp [runningMaxAux] at hd
  | cons x t ih =>
    intro acc hacc hc d hd
    have hx : 0 < x := hc x (by simp)
    have hM : 0 < max acc x := lt_max_iff.mpr (Or.inl hacc)
    simp only [runningMaxAux, List.zipWith_cons_cons, List.mem_cons] at hd
    rcases hd with rfl | hd
    · exact div_nonpos_iff.mpr (Or.inr ⟨by simp [sub_nonpos], hM.le⟩)
    · exact ih (max acc x) hM (fun z hz => hc z (by simp [hz])) d hd

/-- If every drawdown against the running maximum is nonnegative, the
positive cumulative path climbs from the accumulator monotonically. -/
theorem drawdown_zero_chain (c : List ℝ) :
    ∀ acc : ℝ, 0 < acc → (∀ x ∈ c, 0 < x) →
      (∀ d ∈ List.zipWith (fun v m => (v - m) / m) c (runningMaxAux acc c), 0 ≤ d) →
      List.Chain (· ≤ ·) acc c := by
  induction c with
  | nil => intro acc _ _ _; exact List.Chain.nil
  | cons x t ih =>
    intro acc hacc hc hd
    have hx : 0 < x := hc x (by simp)
    have hM : 0 < max acc x := lt_max_iff.mpr (Or.inl hacc)
    have hd0 : 0 ≤ (x - max acc x) / max acc x := by
      apply hd
      simp [runningMaxAux]
    have hxM : max acc x ≤ x := by
      have := (le_div_iff₀ hM).mp hd0
      simpa using this
    have hMx : max acc x = x := le_antisymm hxM (le_max_right acc x)
    rw [List.chain_cons]
    refine ⟨le_trans (le_max_left acc x) hxM, ?_⟩
    apply ih x hx (fun z hz => hc z (by simp [hz]))
    intro d hd2
    apply hd
    simp only [runningMaxAux, List.zipWith_cons_cons, List.mem_cons]
    right
    rw [hMx]
    exact hd2

/-- The running minimum computed by a fold is a lower bound for the start
and every element. -/
theorem foldl_min_le (t : List ℝ) :
    ∀ a : ℝ, t.foldl min a ≤ a ∧ ∀ x ∈ t, t.foldl min a ≤ x := by
  induction t with
  | nil => intro a; simp
  | cons y t2 ih =>
    intro a
    have h := ih (min a y)
    refine ⟨le_trans h.1 (min_le_left a y), ?_⟩
    intro x hx
    simp only [List.mem_cons] at hx
    rcases hx with rfl | hx
    · exact le_trans h.1 (min_le_right a x)
    · exact h.2 x hx

/-- The minimum of a nonempty list bounds each of its members. -/
theorem listMin_le_mem (l : List ℝ) (x : ℝ) (hx : x ∈ l) : listMin l ≤ x := by
  cases l with
  | nil => simp at hx
  | cons a t =>
    simp only [List.mem_cons] at hx
    rcases hx with rfl | hx
    · exact (foldl_min_le t x).1
    · exact (foldl_min_le t a).2 x hx

/-- C3 counterexample.  The claim quantifies over every price table; for
the table whose single price column is `[100, -100, -300]` the computed
maximum drawdown is `0` while the cumulative-return path `[-1, -3]` is
strictly decreasing, refuting "equals 0 only when the cumulative-return
path is monotonically non-decreasing". -/
theorem C3_counterexample :
    (metricasRaw [100, -100, -300]).maxDrawdown = 0 ∧
      ¬ List.Chain' (· ≤ ·) (cumulative (retornosR [100, -100, -300])) := by
  have hr : retornosR [100, -100, -300] = [-2, 2] := by
    simp only [retornosR, List.tail_cons, List.zipWith_cons_cons, List.zipWith_nil_right]
    norm_num
  have hc : cumulative [-2, 2] = [-1, -3] := by
    simp only [cumulative, List.map_cons, List.map_nil, cumprodAux]
    norm_num
  have hrm : runningMax [-1, -3] = [-1, -1] := by
    simp only [runningMax, runningMaxAux]
    norm_num [max_def]
  constructor
  · show listMin (drawdowns (retornosR [100, -100, -300])) * 100 = 0
    rw [hr]
    simp only [drawdowns, hc, hrm, List.zipWith_cons_cons, List.zipWith_nil_right]
    norm_num [listMin, min_def]
  · rw [hr, hc]
    rw [List.chain'_cons]
    push_neg
    intro h
    norm_num at h

/-- C3 (amended: for price tables with at least 2 rows and strictly
positive prices, the domain of real price data).  The Max Drawdown computed
by `calcular_metricas` is at most 0, and it equals 0 only when the
instrument's cumulative-return path is monotonically non-decreasing. -/
theorem C3_max_drawdown (p : List ℝ) (h2 : 2 ≤ p.length) (hpos : ∀ x ∈ p, 0 < x) :
    (metricasRaw p).maxDrawdown ≤ 0 ∧
      ((metricasRaw p).maxDrawdown = 0 →
        List.Chain' (· ≤ ·) (cumulative (retornosR p))) := by
  have honeadd : ∀ x ∈ (retornosR p).map (fun x => 1 + x), 0 < x := by
    intro x hx
    obtain ⟨y, hy, rfl⟩ := List.mem_map.mp hx
    exact retornosR_one_add_pos p hpos y hy
  have hcpos : ∀ y ∈ cumulative (retornosR p), 0 < y :=
    cumprodAux_pos _ 1 one_pos honeadd
  have hrlen : 1 ≤ (retornosR p).length := by
    simp only [retornosR, List.length_zipWith, List.length_tail]
    omega
  have hclen : 1 ≤ (cumulative (retornosR p)).length := by
    have : ∀ (acc : ℝ) (l : List ℝ), (cumprodAux acc l).length = l.length := by
      intro acc l
      induction l generalizing acc with
      | nil => rfl
      | cons x t ih => simp [cumprodAux, ih]
    simpa [cumulative, this] using hrlen
  obtain ⟨x, t, hxt⟩ : ∃ x t, cumulative (retornosR p) = x :: t := by
    cases hcu : cumulative (retornosR p) with
    | nil => rw [hcu] at hclen; simp at hclen
    | cons x t => exact ⟨x, t, rfl⟩
  have hx : 0 < x := hcpos x (by rw [hxt]; simp)
  have htpos : ∀ z ∈ x :: t, 0 < z := by
    intro z hz
    exact hcpos z (by rw [hxt]; exact hz)
  have hddlist : drawdowns (retornosR p) =
      List.zipWith (fun v m => (v - m) / m) (x :: t) (runningMaxAux x (x :: t)) := by
    rw [drawdowns, hxt, runningMax]
  have hdd_nonpos : ∀ d ∈ drawdowns (retornosR p), d ≤ 0 := by
    rw [hddlist]
    exact drawdown_entries_nonpos (x :: t) x hx htpos
  have hddne : drawdowns (retornosR p) ≠ [] := by
    rw [hddlist]
    simp [runningMaxAux]
  have hmin_nonpos : listMin (drawdowns (retornosR p)) ≤ 0 := by
    cases hdl : drawdowns (retornosR p) with
    | nil => exact absurd hdl hddne
    | cons d ds =>
      have hd := hdd_nonpos d (by rw [hdl]; simp)
      have := listMin_le_mem (d :: ds) d (by simp)
      linarith
  constructor
  · show listMin (drawdowns (retornosR p)) * 100 ≤ 0
    linarith
  · intro h0
    have hmin0 : listMin (drawdowns (retornosR p)) = 0 := by
      have : listMin (drawdowns (retornosR p)) * 100 = 0 := h0
      linarith
    have hdd_nonneg : ∀ d ∈ drawdowns (retornosR p), 0 ≤ d := by
      intro d hd
      have := listMin_le_mem _ d hd
      linarith
    have hchain : List.Chain (· ≤ ·) x (x :: t) := by
      apply drawdown_zero_chain (x :: t) x hx htpos
      intro d hd
      exact hdd_nonneg d (by rw [hddlist]; exact hd)
    rw [hxt]
    exact (List.chain_cons.mp hchain).2

/-- Witness for the amended C3 on the positive price series `[1, 2, 1]`. -/
theorem C3_max_drawdown_witness :
    (2 ≤ ([1, 2, 1] : List ℝ).length ∧ ∀ x ∈ ([1, 2, 1] : List ℝ), 0 < x) ∧
      ((metricasRaw [1, 2, 1]).maxDrawdown ≤ 0 ∧
        ((metricasRaw [1, 2, 1]).maxDrawdown = 0 →
          List.Chain' (· ≤ ·) (cumulative (retornosR [1, 2, 1])))) :=
  ⟨⟨by norm_num, by
      rintro x hx
      simp only [List.mem_cons, List.not_mem_nil, or_false] at hx
      rcases hx with rfl | rfl | rfl <;> norm_num⟩,
    C3_max_drawdown [1, 2, 1] (by norm_num) (by
      rintro x hx
      simp only [List.mem_cons, List.not_mem_nil, or_false] at hx
      rcases hx with rfl | rfl | rfl <;> norm_num)⟩

/-! ### C6 — the correlation matrix -/

/-- The sum of squared deviations is nonnegative. -/
theorem devSq_nonneg (l : List ℝ) : 0 ≤ devSq l := by
  apply List.sum_nonneg
  intro x hx
  obtain ⟨y, _, rfl⟩ := List.mem_map.mp hx
  positivity

/-- Pearson correlation is symmetric in its two series. -/
theorem corrPearson_comm (x y : List ℝ) : corrPearson x y = corrPearson y x := by
  unfold corrPearson
  rw [List.zipWith_comm]
  have hfun : (fun b a => (a - meanR x) * (b - meanR y)) =
      fun a b : ℝ => (a - meanR y) * (b - meanR x) := by
    funext u v
    ring
  rw [hfun, mul_comm (devSq x) (devSq y)]

/-- Pearson correlation of a series with itself is 1 when its
squared-deviation sum is nonzero. -/
theorem corrPearson_self (x : List ℝ) (h : devSq x ≠ 0) : corrPearson x x = 1 := by
  unfold corrPearson
  rw [List.zipWith_same]
  have hfun : (fun a : ℝ => (a - meanR x) * (a - meanR x)) =
      fun a : ℝ => (a - meanR x) ^ 2 := by
    funext a
    ring
  rw [hfun, Real.sqrt_mul_self (devSq_nonneg x)]
  exact div_self h

/-- Entry `(i, j)` of the correlation matrix is the Pearson correlation of
columns `i` and `j`. -/
theorem corrMatrix_entry (cols : List (List ℝ)) (i j : ℕ) (hi : i < cols.length)
    (hj : j < cols.length) :
    ((corrMatrix cols).getD i []).getD j 0 =
      corrPearson (cols.getD i []) (cols.getD j []) := by
  simp [corrMatrix, List.getD_eq_getElem?_getD, List.getElem?_map,
    List.getElem?_eq_getElem, hi, hj]

/-- C6 counterexample.  The claim quantifies over every set of return
series; for the single constant return series produced by the price column
`[100, 110, 121]` (returns `[0.10, 0.10]`) the squared-deviation sum is 0,
so the matrix's diagonal entry is the junk value of division by zero (NaN
in pandas), not 1. -/
theorem C6_counterexample :
    ((corrMatrix [retornosR [100, 110, 121]]).getD 0 []).getD 0 0 ≠ 1 := by
  have hr : retornosR [100, 110, 121] = [1 / 10, 1 / 10] := by
    simp only [retornosR, List.tail_cons, List.zipWith_cons_cons, List.zipWith_nil_right]
    norm_num
  rw [hr]
  have hm : meanR [1 / 10, (1 : ℝ) / 10] = 1 / 10 := by
    simp only [meanR, List.sum_cons, List.sum_nil, List.length_cons, List.length_nil]
    norm_num
  have hzero : corrPearson [1 / 10, (1 : ℝ) / 10] [1 / 10, (1 : ℝ) / 10] = 0 := by
    unfold corrPearson
    rw [hm]
    simp only [List.zipWith_cons_cons, List.zipWith_nil_right, List.sum_cons, List.sum_nil]
    norm_num
  simp only [corrMatrix, List.map_cons, List.map_nil, List.getD_eq_getElem?_getD,
    List.getElem?_cons_zero, Option.getD_some, hzero]
  norm_num

/-- C6 (amended: the diagonal entry of an instrument is 1 when the
instrument's return series has a nonzero squared-deviation sum — a
non-constant series; for a constant series the code yields the junk value
of a zero divisor, NaN in pandas).  The correlation matrix
`retornos.corr()` is always symmetric. -/
theorem C6_correlacion (cols : List (List ℝ)) (i j : ℕ) (hi : i < cols.length)
    (hj : j < cols.length) :
    ((corrMatrix cols).getD i []).getD j 0 = ((corrMatrix cols).getD j []).getD i 0 ∧
      (devSq (cols.getD i []) ≠ 0 →
        ((corrMatrix cols).getD i []).getD i 0 = 1) := by
  constructor
  · rw [corrMatrix_entry cols i j hi hj, corrMatrix_entry cols j i hj hi]
    exact corrPearson_comm _ _
  · intro h
    rw [corrMatrix_entry cols i i hi hi]
    exact corrPearson_self _ h

/-- Witness for the amended C6 on the one-column table `[[1, 2]]`
(non-constant, squared-deviation sum `1/2`). -/
theorem C6_correlacion_witness :
    ((0 : ℕ) < ([[1, 2]] : List (List ℝ)).length ∧
        devSq (([[1, 2]] : List (List ℝ)).getD 0 []) ≠ 0) ∧
      (((corrMatrix [[1, 2]]).getD 0 []).getD 0 0 =
          ((corrMatrix [[1, 2]]).getD 0 []).getD 0 0 ∧
        (devSq (([[1, 2]] : List (List ℝ)).getD 0 []) ≠ 0 →
          ((corrMatrix [[(1 : ℝ), 2]]).getD 0 []).getD 0 0 = 1)) := by
  have hdev : devSq (([[1, 2]] : List (List ℝ)).getD 0 []) ≠ 0 := by
    simp only [List.getD_eq_getElem?_getD, List.getElem?_cons_zero, Option.getD_some]
    simp only [devSq, meanR, List.map_cons, List.map_nil, List.sum_cons, List.sum_nil,
      List.length_cons, List.length_nil]
    norm_num
  exact ⟨⟨by norm_num, hdev⟩,
    C6_correlacion [[1, 2]] 0 0 (by norm_num) (by norm_num)⟩

/-! ### C8 — empty assembled table halts the render pass -/

/-- C8.  If at least one instrument is selected but the table assembled by
`descargar_datos` is empty after fetching and dropping incomplete rows,
the render pass ends in the user-visible-error state `sinDatos`
(`st.error` followed by `st.stop`): no metrics and no charts are
computed. -/
theorem C8_tabla_vacia (sel : List String) (fetch : String → FetchOutcome)
    (hne : sel ≠ []) (hempty : tableEmpty (descargar_datos fetch sel).1 = true) :
    mainFlow sel fetch = RenderResult.sinDatos := by
  have hsel : sel.isEmpty = false := by
    cases sel with
    | nil => exact absurd rfl hne
    | cons a t => rfl
  unfold mainFlow
  rw [hsel]
  simp only [Bool.false_eq_true, if_false, hempty, if_true]

/-- Witness for C8: one selected ticker whose fetch returns no data. -/
theorem C8_tabla_vacia_witness :
    (["A"] : List String) ≠ [] ∧
      tableEmpty (descargar_datos (fun _ => FetchOutcome.emptyData) ["A"]).1 = true ∧
      mainFlow ["A"] (fun _ => FetchOutcome.emptyData) = RenderResult.sinDatos :=
  ⟨by decide, by decide,
    C8_tabla_vacia ["A"] (fun _ => FetchOutcome.emptyData) (by decide) (by decide)⟩

end Dashboard
